import Mathlib

/-!
Verification of the fskv filesystem-backed key-value store (`src/lib.rs`).

The embedding models the POSIX filesystem as an association list mapping
absolute paths (lists of components) to nodes (directory, or file with
string content).  Filesystem syscalls used by the library
(`fs::metadata`, `fs::create_dir_all`, exclusive-create + `write_all`,
`File::open` + `read_to_string`, `fs::rename`, `fs::remove_file`) are
modelled as pure state-passing functions.  The nanosecond timestamp used
by `Store::update` for the temporary file name is an explicit input of
the model.  MD5 (from the `md5` crate, used by `Store::get_key_path`)
is implemented in full from the RFC 1321 algorithm.
-/

set_option maxRecDepth 100000

/-- 32-bit truncation. -/
def w32 (n : Nat) : Nat := n % 4294967296

/-- 32-bit addition. -/
def add32 (a b : Nat) : Nat := (a + b) % 4294967296

/-- 32-bit complement (inputs are kept below 2^32). -/
def not32 (a : Nat) : Nat := 4294967295 - (a % 4294967296)

/-- 32-bit left rotation. -/
def rotl32 (x s : Nat) : Nat :=
  let y := x % 4294967296
  ((y <<< s) ||| (y >>> (32 - s))) % 4294967296

/-- MD5 per-round constants, `K[i] = floor(abs(sin(i+1)) * 2^32)`. -/
def md5K (i : Nat) : Nat :=
  [0xd76aa478, 0xe8c7b756, 0x242070db, 0xc1bdceee,
   0xf57c0faf, 0x4787c62a, 0xa8304613, 0xfd469501,
   0x698098d8, 0x8b44f7af, 0xffff5bb1, 0x895cd7be,
   0x6b901122, 0xfd987193, 0xa679438e, 0x49b40821,
   0xf61e2562, 0xc040b340, 0x265e5a51, 0xe9b6c7aa,
   0xd62f105d, 0x02441453, 0xd8a1e681, 0xe7d3fbc8,
   0x21e1cde6, 0xc33707d6, 0xf4d50d87, 0x455a14ed,
   0xa9e3e905, 0xfcefa3f8, 0x676f02d9, 0x8d2a4c8a,
   0xfffa3942, 0x8771f681, 0x6d9d6122, 0xfde5380c,
   0xa4beea44, 0x4bdecfa9, 0xf6bb4b60, 0xbebfbc70,
   0x289b7ec6, 0xeaa127fa, 0xd4ef3085, 0x04881d05,
   0xd9d4d039, 0xe6db99e5, 0x1fa27cf8, 0xc4ac5665,
   0xf4292244, 0x432aff97, 0xab9423a7, 0xfc93a039,
   0x655b59c3, 0x8f0ccc92, 0xffeff47d, 0x85845dd1,
   0x6fa87e4f, 0xfe2ce6e0, 0xa3014314, 0x4e0811a1,
   0xf7537e82, 0xbd3af235, 0x2ad7d2bb, 0xeb86d391].getD i 0

/-- MD5 per-round left-rotation amounts. -/
def md5S (i : Nat) : Nat :=
  [7, 12, 17, 22, 7, 12, 17, 22, 7, 12, 17, 22, 7, 12, 17, 22,
   5, 9, 14, 20, 5, 9, 14, 20, 5, 9, 14, 20, 5, 9, 14, 20,
   4, 11, 16, 23, 4, 11, 16, 23, 4, 11, 16, 23, 4, 11, 16, 23,
   6, 10, 15, 21, 6, 10, 15, 21, 6, 10, 15, 21, 6, 10, 15, 21].getD i 0

/-- MD5 round function, by round index. -/
def md5F (i b c d : Nat) : Nat :=
  if i < 16 then (b &&& c) ||| (not32 b &&& d)
  else if i < 32 then (d &&& b) ||| (not32 d &&& c)
  else if i < 48 then b ^^^ c ^^^ d
  else c ^^^ (b ||| not32 d)

/-- MD5 message-word index, by round index. -/
def md5G (i : Nat) : Nat :=
  if i < 16 then i
  else if i < 32 then (5 * i + 1) % 16
  else if i < 48 then (3 * i + 5) % 16
  else (7 * i) % 16

/-- Little-endian 32-bit word `j` of a 64-byte chunk. -/
def chunkWord (chunk : List Nat) (j : Nat) : Nat :=
  chunk.getD (4 * j) 0 + 256 * chunk.getD (4 * j + 1) 0 +
    65536 * chunk.getD (4 * j + 2) 0 + 16777216 * chunk.getD (4 * j + 3) 0

/-- One MD5 round applied to the running state `(A, B, C, D)`. -/
def md5Round (chunk : List Nat) (st : Nat × Nat × Nat × Nat) (i : Nat) :
    Nat × Nat × Nat × Nat :=
  match st with
  | (a, b, c, d) =>
    let f := add32 (add32 (add32 a (md5F i b c d)) (md5K i)) (chunkWord chunk (md5G i))
    (d, add32 b (rotl32 f (md5S i)), b, c)

/-- Process one 64-byte chunk: 64 rounds, then add into the state. -/
def md5ProcessChunk (st : Nat × Nat × Nat × Nat) (chunk : List Nat) :
    Nat × Nat × Nat × Nat :=
  match st, (List.range 64).foldl (md5Round chunk) st with
  | (a0, b0, c0, d0), (a, b, c, d) =>
    (add32 a0 a, add32 b0 b, add32 c0 c, add32 d0 d)

/-- Process `n` chunks of 64 bytes each. -/
def md5Chunks : Nat → Nat × Nat × Nat × Nat → List Nat → Nat × Nat × Nat × Nat
  | 0, st, _ => st
  | n + 1, st, bytes => md5Chunks n (md5ProcessChunk st (bytes.take 64)) (bytes.drop 64)

/-- MD5 padding: append `0x80`, zeros to 56 mod 64, then the 64-bit
little-endian bit length. -/
def md5Pad (msg : List Nat) : List Nat :=
  let r := msg.length % 64
  let pz := (119 - r) % 64
  let bl := (8 * msg.length) % 18446744073709551616
  msg ++ 128 :: List.replicate pz 0 ++ (List.range 8).map (fun i => (bl >>> (8 * i)) % 256)

/-- UTF-8 encoding of one character, as a list of byte values. -/
def utf8Char (c : Char) : List Nat :=
  let n := c.toNat
  if n < 128 then [n]
  else if n < 2048 then [192 + n / 64, 128 + n % 64]
  else if n < 65536 then [224 + n / 4096, 128 + (n / 64) % 64, 128 + n % 64]
  else [240 + n / 262144, 128 + (n / 4096) % 64, 128 + (n / 64) % 64, 128 + n % 64]

/-- UTF-8 bytes of a string (Rust `str::as_bytes`). -/
def strBytes (s : String) : List Nat :=
  s.data.foldr (fun c acc => utf8Char c ++ acc) []

/-- The 16 MD5 digest bytes of a string. -/
def md5Bytes (s : String) : List Nat :=
  let padded := md5Pad (strBytes s)
  match md5Chunks (padded.length / 64) (0x67452301, 0xefcdab89, 0x98badcfe, 0x10325476) padded with
  | (a, b, c, d) =>
    [a % 256, (a >>> 8) % 256, (a >>> 16) % 256, (a >>> 24) % 256,
     b % 256, (b >>> 8) % 256, (b >>> 16) % 256, (b >>> 24) % 256,
     c % 256, (c >>> 8) % 256, (c >>> 16) % 256, (c >>> 24) % 256,
     d % 256, (d >>> 8) % 256, (d >>> 16) % 256, (d >>> 24) % 256]

/-- Lowercase hex digit for a value below 16. -/
def hexDigit (d : Nat) : Char :=
  Char.ofNat (if d < 10 then 48 + d else 87 + d)

/-- Hexadecimal MD5 digest of a string: Rust
`format!("\x7b:x\x7d", md5::compute(key))`, 32 lowercase hex characters. -/
def md5hex (s : String) : String :=
  String.mk ((md5Bytes s).foldr
    (fun b acc => hexDigit ((b / 16) % 16) :: hexDigit (b % 16) :: acc) [])

/-- A filesystem node: directory, or regular file with its content. -/
inductive Node
  | dir : Node
  | file : String → Node
deriving DecidableEq, Repr

instance : Inhabited Node := ⟨Node.dir⟩

/-- An absolute path: the list of its components (the filesystem root is `[]`). -/
abbrev FPath := List String

/-- Filesystem state: association list from paths to nodes. -/
abbrev FS := List (FPath × Node)

/-- First-match lookup of a path in the filesystem. -/
def FS.lookup : FS → FPath → Option Node
  | [], _ => none
  | e :: es, p => if e.1 = p then some e.2 else FS.lookup es p

/-- Remove all entries at a path. -/
def FS.remove : FS → FPath → FS
  | [], _ => []
  | e :: es, p => if e.1 = p then FS.remove es p else e :: FS.remove es p

/-- Set the node stored at a path. -/
def FS.set (fs : FS) (p : FPath) (n : Node) : FS :=
  (p, n) :: FS.remove fs p

/-- Node at a path; the filesystem root `[]` is always a directory. -/
def lookupNode (fs : FS) (p : FPath) : Option Node :=
  if p = [] then some Node.dir else FS.lookup fs p

/-- Error kinds surfaced by the modelled syscalls (`std::io::ErrorKind`). -/
inductive ErrorKind
  | notFound
  | alreadyExists
  | isDirectory
  | notADirectory
  | other
deriving DecidableEq, Repr

/-- Decidable equality for results, so witnesses can be checked by
evaluation. -/
instance {e a : Type} [DecidableEq e] [DecidableEq a] : DecidableEq (Except e a) := fun x y =>
  match x, y with
  | Except.ok u, Except.ok w =>
    if h : u = w then isTrue (by rw [h]) else isFalse fun hc => h (Except.ok.inj hc)
  | Except.error u, Except.error w =>
    if h : u = w then isTrue (by rw [h]) else isFalse fun hc => h (Except.error.inj hc)
  | Except.ok _, Except.error _ => isFalse fun hc => Except.noConfusion hc
  | Except.error _, Except.ok _ => isFalse fun hc => Except.noConfusion hc

/-- Split a character list at `/` separators. -/
def splitSlash : List Char → List (List Char)
  | [] => [[]]
  | c :: cs =>
    if c = '/' then [] :: splitSlash cs
    else
      match splitSlash cs with
      | [] => [[c]]
      | h :: t => (c :: h) :: t

/-- Strip a trailing separator marker (a final empty component). -/
def stripSep (p : FPath) : FPath :=
  if p.getLast? = some "" then p.dropLast else p

/-- Whether the textual path ends with a path separator, recorded as a
final empty component. -/
def hasTrailingSep (p : FPath) : Bool :=
  p.getLast? = some ""

/-- Push one path component.  `"."` and interior empty segments are
no-ops for resolution; `".."` pops a component; pushing the final empty
segment of a string such as `""` or `"x/"` leaves the textual path
ending in a separator (Rust `Path::join("")` appends one), recorded as
a final empty component. -/
def pushComponent (p : FPath) (c : String) : FPath :=
  if c = "" then (if hasTrailingSep p then p else p ++ [""])
  else if c = "." then p
  else if c = ".." then (stripSep p).dropLast
  else stripSep p ++ [c]

/-- Rust `Path::join` / `PathBuf::push`: splits the argument on `/`;
an absolute argument replaces the whole path. -/
def joinStr (p : FPath) (s : String) : FPath :=
  let start := if s.data.head? = some '/' then ([] : FPath) else p
  ((splitSlash s.data).map (fun l => String.mk l)).foldl pushComponent start

/-- Path denoted by a Rust path string (relative paths are resolved
against the process working directory, modelled as the root `[]`). -/
def strToPath (s : String) : FPath := joinStr [] s

/-- `fs::create_dir_all`, walking the remaining components; `pre` is the
already-existing (or just-created) part. Creates every missing directory;
fails if an existing prefix is a regular file. -/
def createDirAllAux (fs : FS) (pre : FPath) : List String → FS × Option ErrorKind
  | [] => (fs, none)
  | c :: cs =>
    let q := pre ++ [c]
    match lookupNode fs q with
    | some Node.dir => createDirAllAux fs q cs
    | some (Node.file _) => (fs, some ErrorKind.notADirectory)
    | none => createDirAllAux (FS.set fs q Node.dir) q cs

/-- `fs::create_dir_all` on a full path. -/
def fsCreateDirAll (fs : FS) (p : FPath) : FS × Option ErrorKind :=
  createDirAllAux fs [] p

/-- Exclusive creation plus write:
`OpenOptions::new().write(true).create_new(true).open(p)` followed by
`write_all`.  Linux `open(2)` with `O_CREAT` rejects any path ending in
a separator with `EISDIR` before the existence check; otherwise it
fails with `AlreadyExists` if the path exists (whatever its kind), and
if the parent is missing or not a directory. -/
def createNewWrite (fs : FS) (p : FPath) (v : String) : FS × Option ErrorKind :=
  if hasTrailingSep p then (fs, some ErrorKind.isDirectory)
  else
    match lookupNode fs p with
    | some _ => (fs, some ErrorKind.alreadyExists)
    | none =>
      match lookupNode fs p.dropLast with
      | some Node.dir => (FS.set fs p (Node.file v), none)
      | some (Node.file _) => (fs, some ErrorKind.notADirectory)
      | none => (fs, some ErrorKind.notFound)

/-- `File::open` followed by `read_to_string`. -/
def fsReadFile (fs : FS) (p : FPath) : Except ErrorKind String :=
  match lookupNode fs p with
  | some (Node.file v) => Except.ok v
  | some Node.dir => Except.error ErrorKind.isDirectory
  | none => Except.error ErrorKind.notFound

/-- Move the subtree rooted at `oldp` to `newp` (after clearing `newp`). -/
def renameTree (fs : FS) (oldp newp : FPath) : FS :=
  (FS.remove fs newp).map
    (fun e => if e.1.take oldp.length = oldp then (newp ++ e.1.drop oldp.length, e.2) else e)

/-- `fs::rename` with POSIX `rename(2)` semantics: the source must exist,
the target's parent must be a directory, a file target is atomically
replaced, a nonexistent target is created, a directory target of a file
source fails with `EISDIR`, and directory sources move their subtree. -/
def fsRename (fs : FS) (oldp newp : FPath) : FS × Option ErrorKind :=
  if oldp = [] ∨ newp = [] then (fs, some ErrorKind.other)
  else
    match lookupNode fs oldp with
    | none => (fs, some ErrorKind.notFound)
    | some n =>
      if oldp = newp then (fs, none)
      else
        match lookupNode fs newp.dropLast with
        | some Node.dir =>
          match n, lookupNode fs newp with
          | Node.file v, none => (FS.set (FS.remove fs oldp) newp (Node.file v), none)
          | Node.file v, some (Node.file _) =>
            (FS.set (FS.remove fs oldp) newp (Node.file v), none)
          | Node.file _, some Node.dir => (fs, some ErrorKind.isDirectory)
          | Node.dir, some (Node.file _) => (fs, some ErrorKind.notADirectory)
          | Node.dir, tgt =>
            if newp.take oldp.length = oldp then (fs, some ErrorKind.other)
            else
              match tgt with
              | some (Node.file _) => (fs, some ErrorKind.other)
              | some Node.dir =>
                if fs.any (fun e => decide (e.1.take newp.length = newp) && decide (e.1 ≠ newp))
                then (fs, some ErrorKind.other)
                else (renameTree fs oldp newp, none)
              | none => (renameTree fs oldp newp, none)
        | some (Node.file _) => (fs, some ErrorKind.notADirectory)
        | none => (fs, some ErrorKind.notFound)

/-- `DIRECTORY_TREE_HEIGHT` in `src/lib.rs`. -/
def DIRECTORY_TREE_HEIGHT : Nat := 3

/-- `SINGLE_DIRECTORY_LENGTH` in `src/lib.rs`. -/
def SINGLE_DIRECTORY_LENGTH : Nat := 4

/-- The `Store` struct: a handle holding only the root directory path. -/
structure Store where
  root_directory : String
deriving DecidableEq, Repr

/-- `Store::get_key_path`: root joined with `DIRECTORY_TREE_HEIGHT`
consecutive `SINGLE_DIRECTORY_LENGTH`-character chunks of the MD5 hex
digest of the key. -/
def Store.get_key_path (self : Store) (key : String) : FPath :=
  let digest := md5hex key
  let root := strToPath self.root_directory
  (List.range DIRECTORY_TREE_HEIGHT).foldl
    (fun p i =>
      joinStr p (String.mk ((digest.data.drop (SINGLE_DIRECTORY_LENGTH * i)).take
        SINGLE_DIRECTORY_LENGTH)))
    root

/-- `Store::put`: create the shard directory chain, then exclusively
create the record file and write the value. -/
def Store.put (self : Store) (fs : FS) (key value : String) : FS × Option ErrorKind :=
  let key_path := self.get_key_path key
  match fsCreateDirAll fs key_path with
  | (fs1, some e) => (fs1, some e)
  | (fs1, none) => createNewWrite fs1 (joinStr key_path key) value

/-- `Store::get`: open the record file and read it. -/
def Store.get (self : Store) (fs : FS) (key : String) : Except ErrorKind String :=
  fsReadFile fs (joinStr (self.get_key_path key) key)

/-- `Store::update`: if the shard path exists, write the value to a
temporary file named by the nanosecond timestamp (`nanos`, an input of
the model) and rename it onto the record file; otherwise delegate to
`put`. -/
def Store.update (self : Store) (fs : FS) (key value nanos : String) : FS × Option ErrorKind :=
  let key_path := self.get_key_path key
  match lookupNode fs key_path with
  | some _ =>
    let tmp_file := joinStr key_path nanos
    let key_file := joinStr key_path key
    match createNewWrite fs tmp_file value with
    | (fs1, some e) => (fs1, some e)
    | (fs1, none) => fsRename fs1 tmp_file key_file
  | none => self.put fs key value

/-- Keys and the timestamp string are single normal path components:
nonempty, not `"."`, not `".."`, and containing no `/`. -/
def normalComp (s : String) : Prop :=
  s ≠ "" ∧ s ≠ "." ∧ s ≠ ".." ∧ ∀ c ∈ s.data, c ≠ '/'

instance (s : String) : Decidable (normalComp s) := by
  unfold normalComp; infer_instance

/-- The timestamp strings produced by
`format!("\x7b\x7d", now.as_nanos())`: nonempty decimal digit strings. -/
def digitsOnly (s : String) : Prop :=
  s ≠ "" ∧ ∀ c ∈ s.data, c.isDigit

instance (s : String) : Decidable (digitsOnly s) := by
  unfold digitsOnly; infer_instance

/-- Filesystem well-formedness: no duplicate paths, and every proper
nonempty ancestor of an entry is a directory entry.  Every state of a
real filesystem satisfies this. -/
def FS.wf (fs : FS) : Prop :=
  (fs.map Prod.fst).Nodup ∧
    ∀ e ∈ fs, ∀ i, i < e.1.length → 0 < i → (e.1.take i, Node.dir) ∈ fs

instance (fs : FS) : Decidable (FS.wf fs) := by
  unfold FS.wf; infer_instance

/-- Whether an optional node is a regular file. -/
def isFile : Option Node → Bool
  | some (Node.file _) => true
  | _ => false

/-- No regular file sits at `p` (it is a directory or absent). -/
def notFileAt (fs : FS) (p : FPath) : Prop := isFile (lookupNode fs p) = false

instance (fs : FS) (p : FPath) : Decidable (notFileAt fs p) := by
  unfold notFileAt; infer_instance

theorem FS.lookup_remove (fs : FS) (p q : FPath) :
    FS.lookup (FS.remove fs p) q = if q = p then none else FS.lookup fs q := by
  induction fs with
  | nil => by_cases h : q = p <;> simp [FS.remove, FS.lookup, h]
  | cons e es ih =>
    by_cases h1 : e.1 = p
    · simp only [FS.remove, if_pos h1, ih]
      by_cases h2 : q = p
      · simp [h2]
      · have h3 : e.1 ≠ q := fun hc => h2 (hc ▸ h1)
        simp [FS.lookup, h2, h3]
    · simp only [FS.remove, if_neg h1]
      simp only [FS.lookup, ih]
      by_cases h2 : q = p
      · have h3 : e.1 ≠ q := fun hc => h1 (h2 ▸ hc)
        simp [h1, h2, h3]
      · by_cases h3 : e.1 = q <;> simp [h2, h3]

theorem FS.lookup_set (fs : FS) (p : FPath) (n : Node) (q : FPath) :
    FS.lookup (FS.set fs p n) q = if q = p then some n else FS.lookup fs q := by
  by_cases h : q = p
  · simp [FS.set, FS.lookup, h]
  · have h' : p ≠ q := fun hc => h hc.symm
    simp [FS.set, FS.lookup, h, h', FS.lookup_remove]

theorem FS.remove_of_lookup_none (fs : FS) (p : FPath) (h : FS.lookup fs p = none) :
    FS.remove fs p = fs := by
  induction fs with
  | nil => rfl
  | cons e es ih =>
    by_cases h1 : e.1 = p
    · simp [FS.lookup, h1] at h
    · simp [FS.lookup, h1] at h
      simp [FS.remove, h1, ih h]

theorem FS.lookup_append (ds fs : FS) (p : FPath) :
    FS.lookup (ds ++ fs) p =
      match FS.lookup ds p with
      | some n => some n
      | none => FS.lookup fs p := by
  induction ds with
  | nil => simp [FS.lookup]
  | cons e es ih =>
    by_cases h : e.1 = p <;> simp [FS.lookup, h, ih]

theorem FS.lookup_none_of_forall (ds : FS) (p : FPath) (h : ∀ e ∈ ds, e.1 ≠ p) :
    FS.lookup ds p = none := by
  induction ds with
  | nil => rfl
  | cons e es ih =>
    have h1 : e.1 ≠ p := h e (List.mem_cons_self e es)
    simp [FS.lookup, h1]
    exact ih fun e' he' => h e' (List.mem_cons_of_mem e he')

theorem FS.lookup_mem (fs : FS) (p : FPath) (n : Node)
    (h : FS.lookup fs p = some n) : (p, n) ∈ fs := by
  induction fs with
  | nil => simp [FS.lookup] at h
  | cons e es ih =>
    by_cases h1 : e.1 = p
    · simp [FS.lookup, h1] at h
      have he : e = (p, n) := by
        obtain ⟨a, b⟩ := e
        simp only at h1 h
        rw [h1, h]
      rw [← he]
      exact List.mem_cons_self _ _
    · simp [FS.lookup, h1] at h
      exact List.mem_cons_of_mem e (ih h)

theorem FS.mem_lookup (fs : FS) (p : FPath) (n : Node)
    (hnd : (fs.map Prod.fst).Nodup) (h : (p, n) ∈ fs) : FS.lookup fs p = some n := by
  induction fs with
  | nil => simp at h
  | cons e es ih =>
    simp only [List.map_cons, List.nodup_cons] at hnd
    rcases List.mem_cons.1 h with h1 | h1
    · simp [FS.lookup, ← h1]
    · have : e.1 ≠ p := by
        intro hc
        exact hnd.1 (hc ▸ (List.mem_map_of_mem Prod.fst h1))
      simp [FS.lookup, this]
      exact ih hnd.2 h1

theorem lookupNode_set (fs : FS) (p : FPath) (n : Node) (q : FPath) (hp : p ≠ []) :
    lookupNode (FS.set fs p n) q = if q = p then some n else lookupNode fs q := by
  by_cases hq : q = []
  · have h2 : ¬ q = p := fun h => hp (h ▸ hq)
    simp [lookupNode, hq, h2, hp]
  · by_cases h : q = p <;> simp [lookupNode, hq, h, hp, FS.lookup_set]

theorem lookupNode_ne_nil (fs : FS) (p : FPath) (h : lookupNode fs p = none) : p ≠ [] := by
  intro hp
  rw [hp] at h
  simp [lookupNode] at h

/-- Ancestors of any present path are directories (in a well-formed state). -/
theorem wf_ancestor (fs : FS) (p : FPath) (n : Node) (i : Nat)
    (hwf : FS.wf fs) (h : lookupNode fs p = some n) (hi : i < p.length) :
    lookupNode fs (p.take i) = some Node.dir := by
  by_cases hi0 : i = 0
  · simp [hi0, lookupNode]
  · have hp : p ≠ [] := by
      intro hc
      rw [hc] at hi
      simp at hi
    have hl : FS.lookup fs p = some n := by
      simpa [lookupNode, hp] using h
    have hm : (p, n) ∈ fs := FS.lookup_mem fs p n hl
    have hmem : (p.take i, Node.dir) ∈ fs := hwf.2 (p, n) hm i hi (Nat.pos_of_ne_zero hi0)
    have hlen : (p.take i).length = i := by
      simp [List.length_take]
      omega
    have htne : p.take i ≠ [] := by
      intro hc
      rw [hc] at hlen
      simp at hlen
      omega
    simp only [lookupNode, if_neg htne]
    exact FS.mem_lookup fs (p.take i) Node.dir hwf.1 hmem

theorem splitSlash_no_slash (l : List Char) (h : ∀ c ∈ l, c ≠ '/') :
    splitSlash l = [l] := by
  induction l with
  | nil => rfl
  | cons c cs ih =>
    have hc : c ≠ '/' := h c (List.mem_cons_self _ _)
    have ih' := ih fun c' hc' => h c' (List.mem_cons_of_mem _ hc')
    simp [splitSlash, hc, ih']

theorem hasTrailingSep_concat (l : FPath) (a : String) (ha : a ≠ "") :
    hasTrailingSep (l ++ [a]) = false := by
  simp [hasTrailingSep, List.getLast?_concat, ha]

theorem stripSep_eq_self (p : FPath) (hp : hasTrailingSep p = false) :
    stripSep p = p := by
  unfold stripSep
  simp only [hasTrailingSep] at hp
  simp at hp
  rw [if_neg hp]

theorem joinStr_normal (p : FPath) (s : String) (h : normalComp s) :
    joinStr p s = stripSep p ++ [s] := by
  obtain ⟨h1, h2, h3, h4⟩ := h
  have hsplit : splitSlash s.data = [s.data] := splitSlash_no_slash _ h4
  have hd : ¬ s.data.head? = some '/' := by
    cases hdata : s.data with
    | nil => simp
    | cons c cs =>
      have : c ≠ '/' := h4 c (by rw [hdata]; exact List.mem_cons_self _ _)
      simp [this]
  have hmk : String.mk s.data = s := rfl
  simp only [joinStr, hsplit, List.map_cons, List.map_nil, if_neg hd,
    List.foldl_cons, List.foldl_nil, hmk]
  simp [pushComponent, h1, h2, h3]

theorem joinStr_empty_of (p : FPath) (hp : hasTrailingSep p = false) :
    joinStr p "" = p ++ [""] := by
  have hmk : String.mk ([] : List Char) = "" := rfl
  simp [joinStr, splitSlash, pushComponent, hmk, hp]

theorem length_foldr_pairs (l : List Nat) :
    (l.foldr (fun b acc => hexDigit ((b / 16) % 16) :: hexDigit (b % 16) :: acc)
      ([] : List Char)).length = 2 * l.length := by
  induction l with
  | nil => rfl
  | cons b bs ih =>
    simp only [List.foldr, List.length_cons, ih]
    omega

theorem md5Bytes_length (s : String) : (md5Bytes s).length = 16 := by
  simp only [md5Bytes]
  rcases hq : md5Chunks ((md5Pad (strBytes s)).length / 64)
      (0x67452301, 0xefcdab89, 0x98badcfe, 0x10325476) (md5Pad (strBytes s)) with
    ⟨a, b, c, d⟩
  simp

theorem md5hex_data (s : String) :
    (md5hex s).data = (md5Bytes s).foldr
      (fun b acc => hexDigit ((b / 16) % 16) :: hexDigit (b % 16) :: acc) [] := rfl

theorem md5hex_length (s : String) : (md5hex s).data.length = 32 := by
  rw [md5hex_data, length_foldr_pairs, md5Bytes_length]

theorem md5hex_chars (s : String) :
    ∀ c ∈ (md5hex s).data, ∃ d, d < 16 ∧ c = hexDigit d := by
  rw [md5hex_data]
  generalize md5Bytes s = l
  induction l with
  | nil =>
    intro c hc
    simp at hc
  | cons b bs ih =>
    intro c hc
    simp only [List.foldr] at hc
    rcases List.mem_cons.1 hc with h1 | hc2
    · exact ⟨(b / 16) % 16, Nat.mod_lt _ (by omega), h1⟩
    · rcases List.mem_cons.1 hc2 with h2 | hc3
      · exact ⟨b % 16, Nat.mod_lt _ (by omega), h2⟩
      · exact ih c hc3

theorem hexDigit_ne_slash : ∀ d, d < 16 → hexDigit d ≠ '/' := by decide

theorem md5chunk_normal (s : String) (i : Nat) (hi : i + 4 ≤ 32) :
    normalComp (String.mk (((md5hex s).data.drop i).take 4)) := by
  have hlen : (((md5hex s).data.drop i).take 4).length = 4 := by
    rw [List.length_take, List.length_drop, md5hex_length]
    omega
  refine ⟨?_, ?_, ?_, ?_⟩
  · intro hc
    have hdd : ((md5hex s).data.drop i).take 4 = [] := congrArg String.data hc
    rw [hdd] at hlen
    simp at hlen
  · intro hc
    have hdd : ((md5hex s).data.drop i).take 4 = ['.'] := congrArg String.data hc
    rw [hdd] at hlen
    simp at hlen
  · intro hc
    have hdd : ((md5hex s).data.drop i).take 4 = ['.', '.'] := congrArg String.data hc
    rw [hdd] at hlen
    simp at hlen
  · intro c hc
    obtain ⟨d, hd, hcd⟩ := md5hex_chars s c
      (List.mem_of_mem_drop (List.mem_of_mem_take hc))
    rw [hcd]
    exact hexDigit_ne_slash d hd

theorem get_key_path_not_trailing (store : Store) (k : String) :
    hasTrailingSep (store.get_key_path k) = false := by
  have hshape : store.get_key_path k =
      joinStr (joinStr (joinStr (strToPath store.root_directory)
        (String.mk (((md5hex k).data.drop 0).take 4)))
        (String.mk (((md5hex k).data.drop 4).take 4)))
        (String.mk (((md5hex k).data.drop 8).take 4)) := rfl
  rw [hshape, joinStr_normal _ _ (md5chunk_normal k 8 (by omega))]
  exact hasTrailingSep_concat _ _ (md5chunk_normal k 8 (by omega)).1

theorem joinStr_key_path (store : Store) (k s : String) (hs : normalComp s) :
    joinStr (store.get_key_path k) s = store.get_key_path k ++ [s] := by
  rw [joinStr_normal _ _ hs, stripSep_eq_self _ (get_key_path_not_trailing store k)]

theorem joinStr_key_path_empty (store : Store) (k : String) :
    joinStr (store.get_key_path k) "" = store.get_key_path k ++ [""] :=
  joinStr_empty_of _ (get_key_path_not_trailing store k)

theorem digitsOnly_normal (s : String) (h : digitsOnly s) : normalComp s := by
  obtain ⟨h1, h2⟩ := h
  refine ⟨h1, ?_, ?_, ?_⟩
  · intro hc
    have : '.' ∈ s.data := by rw [hc]; decide
    have := h2 '.' this
    simp [Char.isDigit] at this
  · intro hc
    have : '.' ∈ s.data := by rw [hc]; decide
    have := h2 '.' this
    simp [Char.isDigit] at this
  · intro c hc hmem
    have := h2 c hc
    rw [hmem] at this
    simp [Char.isDigit] at this

theorem lookupNode_append_of_some (ds fs : FS) (p : FPath) (m : Node)
    (hds : ∀ e ∈ ds, FS.lookup fs e.1 = none) (h : lookupNode fs p = some m) :
    lookupNode (ds ++ fs) p = some m := by
  by_cases hp : p = []
  · simpa [lookupNode, hp] using h
  · have hl : FS.lookup fs p = some m := by simpa [lookupNode, hp] using h
    have hdsn : FS.lookup ds p = none := by
      apply FS.lookup_none_of_forall
      intro e he hc
      have h2 := hds e he
      rw [hc, hl] at h2
      exact Option.noConfusion h2
    simp [lookupNode, hp, FS.lookup_append, hdsn, hl]

theorem cda_all_dirs (rest : List String) (fs : FS) (pre : FPath)
    (h : ∀ i, i ≤ rest.length → lookupNode fs (pre ++ rest.take i) = some Node.dir) :
    createDirAllAux fs pre rest = (fs, none) := by
  induction rest generalizing pre with
  | nil => rfl
  | cons c cs ih =>
    have h1 : lookupNode fs (pre ++ [c]) = some Node.dir := by
      have := h 1 (by simp)
      simpa using this
    simp only [createDirAllAux, h1]
    refine ih (pre ++ [c]) fun i hi => ?_
    have h2 := h (i + 1) (by simpa using Nat.succ_le_succ hi)
    have hpath : pre ++ (c :: cs).take (i + 1) = pre ++ [c] ++ cs.take i := by
      simp [List.take_succ_cons]
    rw [hpath] at h2
    exact h2

theorem cda_main (rest : List String) (fs : FS) (pre : FPath)
    (hpre : lookupNode fs pre = some Node.dir)
    (hclean : ∀ i, i ≤ rest.length → ∀ s,
      lookupNode fs (pre ++ rest.take i) ≠ some (Node.file s)) :
    ∃ ds,
      createDirAllAux fs pre rest = (ds ++ fs, none) ∧
      (∀ e ∈ ds, e.2 = Node.dir ∧ FS.lookup fs e.1 = none ∧
        ∃ i, 0 < i ∧ i ≤ rest.length ∧ e.1 = pre ++ rest.take i) ∧
      (∀ i, i ≤ rest.length → lookupNode (ds ++ fs) (pre ++ rest.take i) = some Node.dir) := by
  induction rest generalizing pre fs with
  | nil =>
    refine ⟨[], by simp [createDirAllAux], by simp, fun i hi => ?_⟩
    have : i = 0 := Nat.le_zero.1 hi
    simpa [this] using hpre
  | cons c cs ih =>
    cases hq : lookupNode fs (pre ++ [c]) with
    | some n =>
      cases n with
      | dir =>
        have hclean' : ∀ i, i ≤ cs.length → ∀ s,
            lookupNode fs (pre ++ [c] ++ cs.take i) ≠ some (Node.file s) := by
          intro i hi s
          have h2 := hclean (i + 1) (by simpa using Nat.succ_le_succ hi) s
          have hpath : pre ++ (c :: cs).take (i + 1) = pre ++ [c] ++ cs.take i := by
            simp [List.take_succ_cons]
          rwa [hpath] at h2
        obtain ⟨ds, heq, hds, hchain⟩ := ih fs (pre ++ [c]) hq hclean'
        refine ⟨ds, ?_, ?_, ?_⟩
        · simpa only [createDirAllAux, hq] using heq
        · intro e he
          obtain ⟨hd1, hd2, i, hi0, hi1, hi2⟩ := hds e he
          refine ⟨hd1, hd2, i + 1, Nat.succ_pos i, by simpa using Nat.succ_le_succ hi1, ?_⟩
          rw [hi2]
          simp [List.take_succ_cons]
        · intro i hi
          match i with
          | 0 =>
            simp only [List.take_zero, List.append_nil]
            refine lookupNode_append_of_some ds fs pre Node.dir ?_ (by simpa using hpre)
            intro e he
            exact (hds e he).2.1
          | Nat.succ j =>
            have hj : j ≤ cs.length := by
              simp at hi
              omega
            have := hchain j hj
            have hpath : pre ++ (c :: cs).take (j + 1) = pre ++ [c] ++ cs.take j := by
              simp [List.take_succ_cons]
            rw [hpath]
            exact this
      | file s =>
        exfalso
        have h1 := hclean 1 (by simp) s
        have hpath : pre ++ (c :: cs).take 1 = pre ++ [c] := by simp
        rw [hpath] at h1
        exact h1 hq
    | none =>
      have hqnil : pre ++ [c] ≠ [] := by simp
      have hql : FS.lookup fs (pre ++ [c]) = none := by
        simpa [lookupNode, hqnil] using hq
      have hset : FS.set fs (pre ++ [c]) Node.dir = (pre ++ [c], Node.dir) :: fs := by
        unfold FS.set
        rw [FS.remove_of_lookup_none fs _ hql]
      have hpre1 : lookupNode (FS.set fs (pre ++ [c]) Node.dir) (pre ++ [c]) =
          some Node.dir := by
        rw [lookupNode_set fs _ Node.dir _ hqnil]
        simp
      have hclean1 : ∀ i, i ≤ cs.length → ∀ s,
          lookupNode (FS.set fs (pre ++ [c]) Node.dir) (pre ++ [c] ++ cs.take i) ≠
            some (Node.file s) := by
        intro i hi s
        rw [lookupNode_set fs _ Node.dir _ hqnil]
        by_cases hx : pre ++ [c] ++ cs.take i = pre ++ [c]
        · simp [hx]
        · rw [if_neg hx]
          have h2 := hclean (i + 1) (by simpa using Nat.succ_le_succ hi) s
          have hpath : pre ++ (c :: cs).take (i + 1) = pre ++ [c] ++ cs.take i := by
            simp [List.take_succ_cons]
          rwa [hpath] at h2
      obtain ⟨ds', heq', hds', hchain'⟩ :=
        ih (FS.set fs (pre ++ [c]) Node.dir) (pre ++ [c]) hpre1 hclean1
      refine ⟨ds' ++ [(pre ++ [c], Node.dir)], ?_, ?_, ?_⟩
      · have : createDirAllAux fs pre (c :: cs) =
            createDirAllAux (FS.set fs (pre ++ [c]) Node.dir) (pre ++ [c]) cs := by
          simp only [createDirAllAux, hq]
        rw [this, heq', hset]
        simp
      · intro e he
        rcases List.mem_append.1 he with he' | he'
        · obtain ⟨hd1, hd2, i, hi0, hi1, hi2⟩ := hds' e he'
          rw [hset] at hd2
          simp only [FS.lookup] at hd2
          by_cases hce : pre ++ [c] = e.1
          · rw [if_pos hce] at hd2
            exact Option.noConfusion hd2
          · rw [if_neg hce] at hd2
            refine ⟨hd1, hd2, i + 1, Nat.succ_pos i, by simpa using Nat.succ_le_succ hi1, ?_⟩
            rw [hi2]
            simp [List.take_succ_cons]
        · have he2 : e = (pre ++ [c], Node.dir) := by simpa using he'
          refine ⟨by rw [he2], by rw [he2]; exact hql, 1, Nat.one_pos, by simp, ?_⟩
          rw [he2]
          simp
      · intro i hi
        have hreassoc : ds' ++ [(pre ++ [c], Node.dir)] ++ fs =
            ds' ++ FS.set fs (pre ++ [c]) Node.dir := by
          rw [hset]
          simp
        match i with
        | 0 =>
          simp only [List.take_zero, List.append_nil]
          rw [hreassoc]
          refine lookupNode_append_of_some ds' _ pre Node.dir ?_ ?_
          · intro e he
            exact (hds' e he).2.1
          · rw [lookupNode_set fs _ Node.dir _ hqnil]
            have : pre ≠ pre ++ [c] := by
              intro hc2
              have := congrArg List.length hc2
              simp at this
            rw [if_neg this]
            simpa using hpre
        | Nat.succ j =>
          have hj : j ≤ cs.length := by
            simp at hi
            omega
          have := hchain' j hj
          rw [hreassoc]
          have hpath : pre ++ (c :: cs).take (j + 1) = pre ++ [c] ++ cs.take j := by
            simp [List.take_succ_cons]
          rw [hpath]
          exact this

theorem cda_top (rest : List String) (fs : FS) (pre : FPath)
    (hpre : lookupNode fs pre = some Node.dir)
    (h : (createDirAllAux fs pre rest).2 = none) :
    lookupNode (createDirAllAux fs pre rest).1 (pre ++ rest) = some Node.dir := by
  induction rest generalizing fs pre with
  | nil => simpa [createDirAllAux] using hpre
  | cons c cs ih =>
    cases hq : lookupNode fs (pre ++ [c]) with
    | some n =>
      cases n with
      | dir =>
        have heq : createDirAllAux fs pre (c :: cs) = createDirAllAux fs (pre ++ [c]) cs := by
          simp only [createDirAllAux, hq]
        rw [heq] at h ⊢
        have := ih fs (pre ++ [c]) hq h
        simpa using this
      | file s =>
        exfalso
        have heq : createDirAllAux fs pre (c :: cs) = (fs, some ErrorKind.notADirectory) := by
          simp only [createDirAllAux, hq]
        rw [heq] at h
        exact Option.noConfusion h
    | none =>
      have hqnil : pre ++ [c] ≠ [] := by simp
      have heq : createDirAllAux fs pre (c :: cs) =
          createDirAllAux (FS.set fs (pre ++ [c]) Node.dir) (pre ++ [c]) cs := by
        simp only [createDirAllAux, hq]
      rw [heq] at h ⊢
      have hpre1 : lookupNode (FS.set fs (pre ++ [c]) Node.dir) (pre ++ [c]) =
          some Node.dir := by
        rw [lookupNode_set fs _ Node.dir _ hqnil]
        simp
      have := ih _ (pre ++ [c]) hpre1 h
      simpa using this

theorem cda_shape (rest : List String) (fs : FS) (pre : FPath) :
    ∃ ds, (createDirAllAux fs pre rest).1 = ds ++ fs ∧
      ∀ e ∈ ds, e.2 = Node.dir ∧ FS.lookup fs e.1 = none := by
  induction rest generalizing fs pre with
  | nil => exact ⟨[], by simp [createDirAllAux], by simp⟩
  | cons c cs ih =>
    cases hq : lookupNode fs (pre ++ [c]) with
    | some n =>
      cases n with
      | dir =>
        obtain ⟨ds, h1, h2⟩ := ih fs (pre ++ [c])
        exact ⟨ds, by simpa only [createDirAllAux, hq] using h1, h2⟩
      | file s =>
        refine ⟨[], ?_, by simp⟩
        simp only [createDirAllAux, hq]
        rfl
    | none =>
      have hqnil : pre ++ [c] ≠ [] := by simp
      have hql : FS.lookup fs (pre ++ [c]) = none := by
        simpa [lookupNode, hqnil] using hq
      have hset : FS.set fs (pre ++ [c]) Node.dir = (pre ++ [c], Node.dir) :: fs := by
        unfold FS.set
        rw [FS.remove_of_lookup_none fs _ hql]
      obtain ⟨ds', h1, h2⟩ := ih (FS.set fs (pre ++ [c]) Node.dir) (pre ++ [c])
      refine ⟨ds' ++ [(pre ++ [c], Node.dir)], ?_, ?_⟩
      · have : createDirAllAux fs pre (c :: cs) =
            createDirAllAux (FS.set fs (pre ++ [c]) Node.dir) (pre ++ [c]) cs := by
          simp only [createDirAllAux, hq]
        rw [this, h1, hset]
        simp
      · intro e he
        rcases List.mem_append.1 he with he' | he'
        · obtain ⟨hd1, hd2⟩ := h2 e he'
          rw [hset] at hd2
          simp only [FS.lookup] at hd2
          by_cases hce : pre ++ [c] = e.1
          · rw [if_pos hce] at hd2
            exact Option.noConfusion hd2
          · rw [if_neg hce] at hd2
            exact ⟨hd1, hd2⟩
        · have he2 : e = (pre ++ [c], Node.dir) := by simpa using he'
          exact ⟨by rw [he2], by rw [he2]; exact hql⟩

theorem get_ok_lookup (self : Store) (fs : FS) (k v : String)
    (h : Store.get self fs k = Except.ok v) :
    lookupNode fs (joinStr (self.get_key_path k) k) = some (Node.file v) := by
  unfold Store.get fsReadFile at h
  cases hx : lookupNode fs (joinStr (self.get_key_path k) k) with
  | none => rw [hx] at h; exact Except.noConfusion h
  | some nn =>
    cases nn with
    | dir => rw [hx] at h; exact Except.noConfusion h
    | file w => rw [hx] at h; injection h with h2; rw [h2]

theorem lookup_get_ok (self : Store) (fs : FS) (k v : String)
    (h : lookupNode fs (joinStr (self.get_key_path k) k) = some (Node.file v)) :
    Store.get self fs k = Except.ok v := by
  unfold Store.get fsReadFile
  rw [h]

theorem createNewWrite_exists (fs : FS) (p : FPath) (v : String) (n : Node)
    (htr : hasTrailingSep p = false) (h : lookupNode fs p = some n) :
    createNewWrite fs p v = (fs, some ErrorKind.alreadyExists) := by
  unfold createNewWrite
  have h0 : ¬ (hasTrailingSep p = true) := by simp [htr]
  rw [if_neg h0, h]

/-- The store handle used by concrete witnesses, rooted at `r`. -/
def demoStore : Store := { root_directory := "r" }

/-- A store state holding the single record `foo ↦ bar`
(the MD5 digest of `foo` begins `acbd18db4cc2`). -/
def demoFS : FS :=
  [(["r", "acbd", "18db", "4cc2", "foo"], Node.file "bar"),
   (["r", "acbd", "18db", "4cc2"], Node.dir),
   (["r", "acbd", "18db"], Node.dir),
   (["r", "acbd"], Node.dir),
   (["r"], Node.dir)]

/-- A store state where the shard directory of `foo` exists but the
record file of `foo` does not. -/
def demoShardOnly : FS :=
  [(["r", "acbd", "18db", "4cc2"], Node.dir),
   (["r", "acbd", "18db"], Node.dir),
   (["r", "acbd"], Node.dir),
   (["r"], Node.dir)]

theorem demo_key_path : demoStore.get_key_path "foo" = ["r", "acbd", "18db", "4cc2"] := by
  decide

theorem demo_wf : FS.wf demoFS ∧ FS.wf demoShardOnly := by decide

/-- C1: for every key `k` not previously present in the store, a
successful `put(store, k, v)` followed immediately by `get(store, k)`
returns exactly `v`. (Success of `put` entails the key was absent, by
the exclusive-create step.) -/
theorem c1_put_then_get (store : Store) (fs : FS) (k v : String) (fs2 : FS)
    (h : store.put fs k v = (fs2, none)) : store.get fs2 k = Except.ok v := by
  simp only [Store.put] at h
  cases hc : fsCreateDirAll fs (store.get_key_path k) with
  | mk fs1 err =>
    rw [hc] at h
    cases err with
    | some e => simp at h
    | none =>
      simp only at h
      unfold createNewWrite at h
      by_cases htr : hasTrailingSep (joinStr (store.get_key_path k) k) = true
      · rw [if_pos htr] at h
        simp at h
      rw [if_neg htr] at h
      cases hl : lookupNode fs1 (joinStr (store.get_key_path k) k) with
      | some nn => rw [hl] at h; simp at h
      | none =>
        rw [hl] at h
        cases hp : lookupNode fs1 (joinStr (store.get_key_path k) k).dropLast with
        | none => rw [hp] at h; simp at h
        | some nn =>
          cases nn with
          | file w => rw [hp] at h; simp at h
          | dir =>
            rw [hp] at h
            simp only [Prod.mk.injEq] at h
            have hkf : joinStr (store.get_key_path k) k ≠ [] := lookupNode_ne_nil fs1 _ hl
            apply lookup_get_ok
            rw [← h.1, lookupNode_set fs1 _ _ _ hkf]
            simp

/-- C1 witness: starting from the empty filesystem and the demo store,
`put("foo", "bar")` succeeds and `get("foo")` returns `"bar"`. -/
theorem c1_put_then_get_witness :
    Store.put demoStore [] "foo" "bar" = ((Store.put demoStore [] "foo" "bar").1, none) ∧
      Store.get demoStore (Store.put demoStore [] "foo" "bar").1 "foo" = Except.ok "bar" :=
  ⟨by decide, c1_put_then_get demoStore [] "foo" "bar" _ (by decide)⟩

/-- C2: `get_key_path(k)` is a pure total function of the key (it is a
Lean function, hence deterministic, side-effect free and identical on
every call); it equals the store root joined with the three consecutive
4-character substrings of the hexadecimal MD5 digest of `k` at
character positions 0-3, 4-7 and 8-11. -/
theorem c2_get_key_path_shape (store : Store) (k : String) :
    store.get_key_path k =
      joinStr (joinStr (joinStr (strToPath store.root_directory)
        (String.mk (((md5hex k).data.drop 0).take 4)))
        (String.mk (((md5hex k).data.drop 4).take 4)))
        (String.mk (((md5hex k).data.drop 8).take 4)) := rfl

/-- C3: for every key `k` present in the store with value `v` (in a
well-formed filesystem state, `k` being a single path component), a
second `put(store, k, v2)` fails with an already-exists error and the
stored record is unchanged: `get(store, k)` on the resulting state still
returns `v`. -/
theorem c3_second_put_fails (store : Store) (fs : FS) (k v v2 : String)
    (hwf : FS.wf fs) (hk : normalComp k) (hget : store.get fs k = Except.ok v) :
    (store.put fs k v2).2 = some ErrorKind.alreadyExists ∧
      store.get (store.put fs k v2).1 k = Except.ok v := by
  have hkf := get_ok_lookup store fs k v hget
  have hjoin : joinStr (store.get_key_path k) k = store.get_key_path k ++ [k] :=
    joinStr_key_path store k k hk
  rw [hjoin] at hkf
  have hchain : ∀ i, i ≤ (store.get_key_path k).length →
      lookupNode fs (([] : FPath) ++ (store.get_key_path k).take i) = some Node.dir := by
    intro i hi
    simp only [List.nil_append]
    have htake : (store.get_key_path k).take i =
        ((store.get_key_path k) ++ [k]).take i := by
      rw [List.take_append_of_le_length hi]
    rw [htake]
    refine wf_ancestor fs _ _ i hwf hkf ?_
    simp only [List.length_append, List.length_cons, List.length_nil]
    omega
  have hcda : fsCreateDirAll fs (store.get_key_path k) = (fs, none) :=
    cda_all_dirs _ fs [] hchain
  simp only [Store.put, hcda]
  have hcnw := createNewWrite_exists fs (joinStr (store.get_key_path k) k) v2 _
    (by rw [hjoin]; exact hasTrailingSep_concat _ _ hk.1)
    (by rw [hjoin]; exact hkf)
  rw [hcnw]
  exact ⟨rfl, hget⟩

/-- C3 witness: with `foo ↦ bar` stored, `put("foo", "baz")` fails with
already-exists and `get("foo")` still returns `bar`. -/
theorem c3_second_put_fails_witness :
    FS.wf demoFS ∧ normalComp "foo" ∧ Store.get demoStore demoFS "foo" = Except.ok "bar" ∧
      ((Store.put demoStore demoFS "foo" "baz").2 = some ErrorKind.alreadyExists ∧
        Store.get demoStore (Store.put demoStore demoFS "foo" "baz").1 "foo" =
          Except.ok "bar") :=
  ⟨by decide, by decide, by decide,
    c3_second_put_fails demoStore demoFS "foo" "bar" "baz" (by decide) (by decide) (by decide)⟩

/-- C10 counterexample: `put(store, "", v)` from the empty filesystem
fails with an is-a-directory error, not with the already-exists error
the claim asserts. -/
theorem c10_counterexample :
    (Store.put demoStore [] "" "x").2 = some ErrorKind.isDirectory ∧
      (Store.put demoStore [] "" "x").2 ≠ some ErrorKind.alreadyExists :=
  ⟨by decide, by decide⟩

/-- C10 (amended): `put(store, "", v)` always fails and creates or
modifies no record file of any key; but the error is is-a-directory
(`EISDIR`), not already-exists: joining the empty key appends a
trailing path separator to the shard path, and the exclusive create
(`open` with `O_CREAT|O_EXCL`) rejects a trailing-separator path with
`EISDIR` before the existence check.  When the shard chain is
creatable (which `put` itself ensures via `create_dir_all`), the error
is exactly is-a-directory; otherwise the `create_dir_all` error is
propagated. -/
theorem c10_put_empty_key_isdir (store : Store) (fs : FS) (v : String) :
    (store.put fs "" v).2 ≠ none ∧
    ((fsCreateDirAll fs (store.get_key_path "")).2 = none →
      store.put fs "" v =
        ((fsCreateDirAll fs (store.get_key_path "")).1,
          some ErrorKind.isDirectory)) ∧
    (∀ p s, lookupNode (store.put fs "" v).1 p = some (Node.file s) ↔
      lookupNode fs p = some (Node.file s)) := by
  cases hc : fsCreateDirAll fs (store.get_key_path "") with
  | mk fs1 err =>
    have haux : createDirAllAux fs [] (store.get_key_path "") = (fs1, err) := hc
    obtain ⟨ds, hsh, hds⟩ := cda_shape (store.get_key_path "") fs []
    rw [haux] at hsh
    simp only at hsh
    have hpres : ∀ p s, lookupNode fs1 p = some (Node.file s) ↔
        lookupNode fs p = some (Node.file s) := by
      intro p s
      rw [hsh]
      by_cases hp : p = []
      · simp [lookupNode, hp]
      · simp only [lookupNode, if_neg hp]
        rw [FS.lookup_append]
        cases hdl : FS.lookup ds p with
        | none => simp
        | some nn =>
          have hmem := FS.lookup_mem ds p nn hdl
          obtain ⟨hdir, hnone⟩ := hds _ hmem
          simp only at hdir hnone
          constructor
          · intro hx
            rw [hdir] at hx
            exact Node.noConfusion (Option.some.inj hx)
          · intro hx
            rw [hnone] at hx
            exact Option.noConfusion hx
    cases err with
    | some e =>
      have hput : store.put fs "" v = (fs1, some e) := by
        simp only [Store.put, hc]
      refine ⟨by rw [hput]; simp, ?_, ?_⟩
      · intro hnone2
        simp at hnone2
      · intro p s
        rw [hput]
        exact hpres p s
    | none =>
      have htr : hasTrailingSep (joinStr (store.get_key_path "") "") = true := by
        rw [joinStr_key_path_empty]
        simp [hasTrailingSep, List.getLast?_concat]
      have hput : store.put fs "" v = (fs1, some ErrorKind.isDirectory) := by
        simp only [Store.put, hc]
        unfold createNewWrite
        rw [if_pos htr]
      refine ⟨by rw [hput]; simp, fun _ => by rw [hput], fun p s => ?_⟩
      rw [hput]
      exact hpres p s

/-- C10 (amended) witness: from the empty filesystem, `put("", "x")`
on the demo store fails with is-a-directory and creates no record. -/
theorem c10_put_empty_key_isdir_witness :
    (fsCreateDirAll ([] : FS) (demoStore.get_key_path "")).2 = none ∧
      ((Store.put demoStore [] "" "x").2 ≠ none ∧
        Store.put demoStore [] "" "x" =
          ((fsCreateDirAll ([] : FS) (demoStore.get_key_path "")).1,
            some ErrorKind.isDirectory)) :=
  ⟨by decide,
    ⟨(c10_put_empty_key_isdir demoStore [] "x").1,
      (c10_put_empty_key_isdir demoStore [] "x").2.1 (by decide)⟩⟩

theorem notFileAt_iff (fs : FS) (p : FPath) :
    notFileAt fs p ↔ ∀ s, lookupNode fs p ≠ some (Node.file s) := by
  unfold notFileAt isFile
  cases h : lookupNode fs p with
  | none => simp
  | some nn => cases nn <;> simp

/-- A valid store root: the root directory `r` with the `.fskv` marker. -/
def demoRootFS : FS := [(["r", ".fskv"], Node.dir), (["r"], Node.dir)]

theorem createNewWrite_cases (fs : FS) (p : FPath) (v : String) :
    (createNewWrite fs p v).1 = fs ∨ (createNewWrite fs p v).2 = none := by
  unfold createNewWrite
  (repeat' split) <;> first | (left; rfl) | (right; rfl)

theorem createNewWrite_err (fs : FS) (p : FPath) (v : String) (e : ErrorKind)
    (h : (createNewWrite fs p v).2 = some e) : (createNewWrite fs p v).1 = fs := by
  rcases createNewWrite_cases fs p v with hx | hx
  · exact hx
  · rw [hx] at h
    exact Option.noConfusion h

theorem createNewWrite_ok (fs : FS) (p : FPath) (v : String) (fs2 : FS)
    (h : createNewWrite fs p v = (fs2, none)) :
    lookupNode fs p = none ∧ lookupNode fs p.dropLast = some Node.dir ∧
      fs2 = FS.set fs p (Node.file v) := by
  unfold createNewWrite at h
  by_cases htr : hasTrailingSep p = true
  · rw [if_pos htr] at h
    simp at h
  rw [if_neg htr] at h
  cases hl : lookupNode fs p with
  | some nn => rw [hl] at h; simp at h
  | none =>
    rw [hl] at h
    cases hp : lookupNode fs p.dropLast with
    | none => rw [hp] at h; simp at h
    | some nn =>
      cases nn with
      | file w => rw [hp] at h; simp at h
      | dir =>
        rw [hp] at h
        simp only [Prod.mk.injEq] at h
        exact ⟨rfl, rfl, h.1.symm⟩

theorem createNewWrite_creates (fs : FS) (p : FPath) (v : String)
    (htr : hasTrailingSep p = false)
    (hl : lookupNode fs p = none) (hp : lookupNode fs p.dropLast = some Node.dir) :
    createNewWrite fs p v = (FS.set fs p (Node.file v), none) := by
  unfold createNewWrite
  have h0 : ¬ (hasTrailingSep p = true) := by simp [htr]
  rw [if_neg h0, hl, hp]

theorem fsRename_cases (fs : FS) (o np : FPath) :
    (fsRename fs o np).1 = fs ∨ (fsRename fs o np).2 = none := by
  unfold fsRename
  (repeat' split) <;> first | (left; rfl) | (right; rfl)

theorem fsRename_err (fs : FS) (o np : FPath) (e : ErrorKind)
    (h : (fsRename fs o np).2 = some e) : (fsRename fs o np).1 = fs := by
  rcases fsRename_cases fs o np with hx | hx
  · exact hx
  · rw [hx] at h
    exact Option.noConfusion h

theorem fsRename_self (fs : FS) (o : FPath) (nn : Node)
    (h0 : o ≠ []) (ho : lookupNode fs o = some nn) : fsRename fs o o = (fs, none) := by
  unfold fsRename
  simp [h0, ho]

theorem fsRename_file_move (fs : FS) (o np : FPath) (v : String)
    (h0 : o ≠ []) (h1 : np ≠ []) (hne : o ≠ np)
    (ho : lookupNode fs o = some (Node.file v))
    (hp : lookupNode fs np.dropLast = some Node.dir)
    (ht : lookupNode fs np = none ∨ ∃ w, lookupNode fs np = some (Node.file w)) :
    fsRename fs o np = (FS.set (FS.remove fs o) np (Node.file v), none) := by
  have hg : ¬ (o = [] ∨ np = []) := by simp [h0, h1]
  unfold fsRename
  rcases ht with ht | ⟨w, ht⟩ <;> simp [hg, ho, hne, hp, ht]

/-- C7: when `update` takes the replace branch (the shard path exists)
and the temporary-file creation or the final rename fails, `update`
returns that error and the record file for `k`, if any, is unchanged:
`get(store, k)` afterwards returns exactly what it returned before.
(A separate mid-write failure cannot occur in this deterministic model;
the temporary-file and rename steps are the two fallible steps.) -/
theorem c7_update_failure_preserves (store : Store) (fs : FS) (k v nanos : String)
    (n : Node) (fs2 : FS) (e : ErrorKind)
    (hb : lookupNode fs (store.get_key_path k) = some n)
    (hf : store.update fs k v nanos = (fs2, some e)) :
    store.get fs2 k = store.get fs k := by
  simp only [Store.update, hb] at hf
  cases hc : createNewWrite fs (joinStr (store.get_key_path k) nanos) v with
  | mk fs1 err =>
    rw [hc] at hf
    cases err with
    | some e1 =>
      simp only [Prod.mk.injEq] at hf
      have hfs1 : fs1 = fs := by
        have h2 := createNewWrite_err fs (joinStr (store.get_key_path k) nanos) v e1
          (by rw [hc])
        rw [hc] at h2
        exact h2
      rw [← hf.1, hfs1]
    | none =>
      simp only at hf
      obtain ⟨hnone, hpdir, hfs1⟩ :=
        createNewWrite_ok fs (joinStr (store.get_key_path k) nanos) v fs1 hc
      have htne : joinStr (store.get_key_path k) nanos ≠ [] :=
        lookupNode_ne_nil fs _ hnone
      by_cases hkt : joinStr (store.get_key_path k) nanos = joinStr (store.get_key_path k) k
      · exfalso
        have hlk : lookupNode fs1 (joinStr (store.get_key_path k) nanos) =
            some (Node.file v) := by
          rw [hfs1, lookupNode_set fs _ _ _ htne]
          simp
        have hrs := fsRename_self fs1 _ (Node.file v) htne hlk
        rw [← hkt, hrs] at hf
        simp at hf
      · have hrn : fs2 = fs1 := by
          rcases fsRename_cases fs1 (joinStr (store.get_key_path k) nanos)
              (joinStr (store.get_key_path k) k) with hx | hx
          · rw [hf] at hx
            exact hx
          · rw [hf] at hx
            exact Option.noConfusion hx
        have hsame : lookupNode fs1 (joinStr (store.get_key_path k) k) =
            lookupNode fs (joinStr (store.get_key_path k) k) := by
          rw [hfs1, lookupNode_set fs _ _ _ htne,
            if_neg fun hcc => hkt hcc.symm]
        unfold Store.get fsReadFile
        rw [hrn, hsame]

/-- C7 witness: with `foo ↦ bar` stored and the timestamp string
colliding with the key itself, the temporary-file creation fails and
`get` is unchanged. -/
theorem c7_update_failure_preserves_witness :
    lookupNode demoFS (demoStore.get_key_path "foo") = some Node.dir ∧
      Store.update demoStore demoFS "foo" "baz" "foo" =
        ((Store.update demoStore demoFS "foo" "baz" "foo").1,
          some ErrorKind.alreadyExists) ∧
      Store.get demoStore (Store.update demoStore demoFS "foo" "baz" "foo").1 "foo" =
        Store.get demoStore demoFS "foo" :=
  ⟨by decide, by decide,
    c7_update_failure_preserves demoStore demoFS "foo" "baz" "foo" Node.dir
      (Store.update demoStore demoFS "foo" "baz" "foo").1 ErrorKind.alreadyExists
      (by decide) (by decide)⟩

/-- C4: for a key `k` present with value `v` (well-formed state, normal
key, fresh digit-string timestamp), `update(store, k, v2)` succeeds and
replaces the visible value: a subsequent `get(store, k)` returns `v2`. -/
theorem c4_update_present (store : Store) (fs : FS) (k v v2 nanos : String)
    (hwf : FS.wf fs) (hk : normalComp k)
    (hget : store.get fs k = Except.ok v)
    (hn : digitsOnly nanos)
    (htmp : lookupNode fs (joinStr (store.get_key_path k) nanos) = none) :
    (store.update fs k v2 nanos).2 = none ∧
      store.get (store.update fs k v2 nanos).1 k = Except.ok v2 := by
  have hkf := get_ok_lookup store fs k v hget
  have hjk : joinStr (store.get_key_path k) k = store.get_key_path k ++ [k] :=
    joinStr_key_path store k k hk
  have hjt : joinStr (store.get_key_path k) nanos = store.get_key_path k ++ [nanos] :=
    joinStr_key_path store k nanos (digitsOnly_normal _ hn)
  rw [hjk] at hkf
  rw [hjt] at htmp
  have hdir : lookupNode fs (store.get_key_path k) = some Node.dir := by
    have h2 := wf_ancestor fs (store.get_key_path k ++ [k]) _
      (store.get_key_path k).length hwf hkf (by simp)
    simpa [List.take_left] using h2
  simp only [Store.update, hdir]
  have hparent : (store.get_key_path k ++ [nanos]).dropLast = store.get_key_path k := by
    simp
  have hcw : createNewWrite fs (joinStr (store.get_key_path k) nanos) v2 =
      (FS.set fs (store.get_key_path k ++ [nanos]) (Node.file v2), none) := by
    rw [hjt]
    exact createNewWrite_creates fs _ v2
      (hasTrailingSep_concat _ _ (digitsOnly_normal _ hn).1) htmp
      (by rw [hparent]; exact hdir)
  rw [hcw]
  simp only
  have htne : store.get_key_path k ++ [nanos] ≠ [] := by simp
  have hkne : store.get_key_path k ++ [k] ≠ [] := by simp
  have hdiffer : store.get_key_path k ++ [nanos] ≠ store.get_key_path k ++ [k] := by
    intro hcc
    rw [hcc] at htmp
    rw [htmp] at hkf
    exact Option.noConfusion hkf
  have hl1 : lookupNode (FS.set fs (store.get_key_path k ++ [nanos]) (Node.file v2))
      (store.get_key_path k ++ [nanos]) = some (Node.file v2) := by
    rw [lookupNode_set fs _ _ _ htne]
    simp
  have hkpne : store.get_key_path k ≠ store.get_key_path k ++ [nanos] := by
    intro hcc
    have := congrArg List.length hcc
    simp at this
  have hl3 : lookupNode (FS.set fs (store.get_key_path k ++ [nanos]) (Node.file v2))
      ((store.get_key_path k ++ [k]).dropLast) = some Node.dir := by
    have hp2 : (store.get_key_path k ++ [k]).dropLast = store.get_key_path k := by simp
    rw [hp2, lookupNode_set fs _ _ _ htne, if_neg hkpne]
    exact hdir
  have hl2 : lookupNode (FS.set fs (store.get_key_path k ++ [nanos]) (Node.file v2))
      (store.get_key_path k ++ [k]) = some (Node.file v) := by
    rw [lookupNode_set fs _ _ _ htne, if_neg fun hcc => hdiffer hcc.symm]
    exact hkf
  have hrn := fsRename_file_move
    (FS.set fs (store.get_key_path k ++ [nanos]) (Node.file v2))
    (store.get_key_path k ++ [nanos]) (store.get_key_path k ++ [k]) v2
    htne hkne hdiffer hl1 hl3 (Or.inr ⟨v, hl2⟩)
  rw [hjt, hjk, hrn]
  refine ⟨rfl, ?_⟩
  unfold Store.get fsReadFile
  rw [hjk, lookupNode_set _ _ _ _ hkne]
  simp

/-- C4 witness: with `foo ↦ bar` stored, `update("foo", "baz")` with
fresh timestamp `1234` succeeds and `get("foo")` returns `baz`. -/
theorem c4_update_present_witness :
    FS.wf demoFS ∧ normalComp "foo" ∧
      Store.get demoStore demoFS "foo" = Except.ok "bar" ∧ digitsOnly "1234" ∧
      lookupNode demoFS (joinStr (demoStore.get_key_path "foo") "1234") = none ∧
      ((Store.update demoStore demoFS "foo" "baz" "1234").2 = none ∧
        Store.get demoStore (Store.update demoStore demoFS "foo" "baz" "1234").1 "foo" =
          Except.ok "baz") :=
  ⟨by decide, by decide, by decide, by decide, by decide,
    c4_update_present demoStore demoFS "foo" "bar" "baz" "1234"
      (by decide) (by decide) (by decide) (by decide) (by decide)⟩

/-- On the replace branch with an absent record file, the rename targets
a nonexistent path and succeeds (POSIX `rename` creates the target), so
`update` succeeds and creates the record. -/
theorem update_replace_absent (store : Store) (fs : FS) (k v nanos : String)
    (hk : normalComp k) (hn : digitsOnly nanos)
    (hdir : lookupNode fs (store.get_key_path k) = some Node.dir)
    (habs : lookupNode fs (joinStr (store.get_key_path k) k) = none)
    (htmp : lookupNode fs (joinStr (store.get_key_path k) nanos) = none) :
    (store.update fs k v nanos).2 = none ∧
      store.get (store.update fs k v nanos).1 k = Except.ok v := by
  have hjk : joinStr (store.get_key_path k) k = store.get_key_path k ++ [k] :=
    joinStr_key_path store k k hk
  have hjt : joinStr (store.get_key_path k) nanos = store.get_key_path k ++ [nanos] :=
    joinStr_key_path store k nanos (digitsOnly_normal _ hn)
  rw [hjk] at habs
  rw [hjt] at htmp
  simp only [Store.update, hdir]
  have hparent : (store.get_key_path k ++ [nanos]).dropLast = store.get_key_path k := by
    simp
  have hcw : createNewWrite fs (joinStr (store.get_key_path k) nanos) v =
      (FS.set fs (store.get_key_path k ++ [nanos]) (Node.file v), none) := by
    rw [hjt]
    exact createNewWrite_creates fs _ v
      (hasTrailingSep_concat _ _ (digitsOnly_normal _ hn).1) htmp
      (by rw [hparent]; exact hdir)
  rw [hcw]
  simp only
  have htne : store.get_key_path k ++ [nanos] ≠ [] := by simp
  have hkne : store.get_key_path k ++ [k] ≠ [] := by simp
  by_cases hsame : nanos = k
  · have hjoin2 : store.get_key_path k ++ [nanos] = store.get_key_path k ++ [k] := by
      rw [hsame]
    have hl1 : lookupNode (FS.set fs (store.get_key_path k ++ [nanos]) (Node.file v))
        (store.get_key_path k ++ [nanos]) = some (Node.file v) := by
      rw [lookupNode_set fs _ _ _ htne]
      simp
    have hrs := fsRename_self
      (FS.set fs (store.get_key_path k ++ [nanos]) (Node.file v))
      (store.get_key_path k ++ [nanos]) (Node.file v) htne hl1
    rw [hjt, hjk, ← hjoin2, hrs]
    refine ⟨rfl, ?_⟩
    unfold Store.get fsReadFile
    rw [hjk, ← hjoin2, lookupNode_set _ _ _ _ htne]
    simp
  · have hdiffer : store.get_key_path k ++ [nanos] ≠ store.get_key_path k ++ [k] := by
      intro hcc
      simp at hcc
      exact hsame hcc
    have hkpne : store.get_key_path k ≠ store.get_key_path k ++ [nanos] := by
      intro hcc
      have := congrArg List.length hcc
      simp at this
    have hl1 : lookupNode (FS.set fs (store.get_key_path k ++ [nanos]) (Node.file v))
        (store.get_key_path k ++ [nanos]) = some (Node.file v) := by
      rw [lookupNode_set fs _ _ _ htne]
      simp
    have hl3 : lookupNode (FS.set fs (store.get_key_path k ++ [nanos]) (Node.file v))
        ((store.get_key_path k ++ [k]).dropLast) = some Node.dir := by
      have hp2 : (store.get_key_path k ++ [k]).dropLast = store.get_key_path k := by simp
      rw [hp2, lookupNode_set fs _ _ _ htne, if_neg hkpne]
      exact hdir
    have hl2 : lookupNode (FS.set fs (store.get_key_path k ++ [nanos]) (Node.file v))
        (store.get_key_path k ++ [k]) = none := by
      rw [lookupNode_set fs _ _ _ htne, if_neg fun hcc => hdiffer hcc.symm]
      exact habs
    have hrn := fsRename_file_move
      (FS.set fs (store.get_key_path k ++ [nanos]) (Node.file v))
      (store.get_key_path k ++ [nanos]) (store.get_key_path k ++ [k]) v
      htne hkne hdiffer hl1 hl3 (Or.inl hl2)
    rw [hjt, hjk, hrn]
    refine ⟨rfl, ?_⟩
    unfold Store.get fsReadFile
    rw [hjk, lookupNode_set _ _ _ _ hkne]
    simp

/-- C5: for a key `k` absent from the store (well-formed state, normal
key, shard chain free of blocking files, fresh digit-string timestamp),
`update(store, k, v)` behaves as `put`: it succeeds and creates the
record, so a subsequent `get(store, k)` returns `v`. -/
theorem c5_update_absent (store : Store) (fs : FS) (k v nanos : String)
    (hk : normalComp k)
    (habs : lookupNode fs (joinStr (store.get_key_path k) k) = none)
    (hclean : ∀ i, i ≤ (store.get_key_path k).length →
      notFileAt fs ((store.get_key_path k).take i))
    (hn : digitsOnly nanos)
    (htmp : lookupNode fs (joinStr (store.get_key_path k) nanos) = none) :
    (store.update fs k v nanos).2 = none ∧
      store.get (store.update fs k v nanos).1 k = Except.ok v := by
  have hjk : joinStr (store.get_key_path k) k = store.get_key_path k ++ [k] :=
    joinStr_key_path store k k hk
  cases hdir : lookupNode fs (store.get_key_path k) with
  | some nn =>
    cases nn with
    | dir => exact update_replace_absent store fs k v nanos hk hn hdir habs htmp
    | file s =>
      exfalso
      have h2 := (notFileAt_iff fs _).mp
        (hclean (store.get_key_path k).length (le_refl _)) s
      rw [List.take_length] at h2
      exact h2 hdir
  | none =>
    simp only [Store.update, hdir]
    have hpre : lookupNode fs ([] : FPath) = some Node.dir := by simp [lookupNode]
    have hclean' : ∀ i, i ≤ (store.get_key_path k).length → ∀ s,
        lookupNode fs (([] : FPath) ++ (store.get_key_path k).take i) ≠
          some (Node.file s) := by
      intro i hi s
      simpa using (notFileAt_iff fs _).mp (hclean i hi) s
    obtain ⟨ds, heq, hds, hchain⟩ := cda_main (store.get_key_path k) fs [] hpre hclean'
    have hfd : fsCreateDirAll fs (store.get_key_path k) = (ds ++ fs, none) := heq
    simp only [Store.put, hfd]
    have hkeyne : store.get_key_path k ++ [k] ≠ [] := by simp
    have hkabs : lookupNode (ds ++ fs) (joinStr (store.get_key_path k) k) = none := by
      rw [hjk]
      rw [hjk] at habs
      simp only [lookupNode, if_neg hkeyne] at habs ⊢
      rw [FS.lookup_append]
      have hdsn : FS.lookup ds (store.get_key_path k ++ [k]) = none := by
        apply FS.lookup_none_of_forall
        intro e he hcc
        obtain ⟨_, _, i, hi0, hi1, hi2⟩ := hds e he
        rw [hcc] at hi2
        have hlen := congrArg List.length hi2
        simp [List.length_take] at hlen
        omega
      rw [hdsn]
      exact habs
    have hptop : lookupNode (ds ++ fs) (store.get_key_path k) = some Node.dir := by
      have h2 := hchain (store.get_key_path k).length (le_refl _)
      simpa [List.take_length] using h2
    have hparent : lookupNode (ds ++ fs)
        ((joinStr (store.get_key_path k) k).dropLast) = some Node.dir := by
      rw [hjk]
      simpa using hptop
    have hcw := createNewWrite_creates (ds ++ fs)
      (joinStr (store.get_key_path k) k) v
      (by rw [hjk]; exact hasTrailingSep_concat _ _ hk.1) hkabs hparent
    rw [hcw]
    refine ⟨rfl, ?_⟩
    unfold Store.get fsReadFile
    have hkeyne2 : joinStr (store.get_key_path k) k ≠ [] := by rw [hjk]; simp
    rw [lookupNode_set _ _ _ _ hkeyne2]
    simp

/-- C5 witness: from a freshly validated empty store root, `update` of
the absent key `foo` creates the record and `get` returns the value. -/
theorem c5_update_absent_witness :
    normalComp "foo" ∧
      lookupNode demoRootFS (joinStr (demoStore.get_key_path "foo") "foo") = none ∧
      (∀ i, i ≤ (demoStore.get_key_path "foo").length →
        notFileAt demoRootFS ((demoStore.get_key_path "foo").take i)) ∧
      digitsOnly "1234" ∧
      lookupNode demoRootFS (joinStr (demoStore.get_key_path "foo") "1234") = none ∧
      ((Store.update demoStore demoRootFS "foo" "bar" "1234").2 = none ∧
        Store.get demoStore
          (Store.update demoStore demoRootFS "foo" "bar" "1234").1 "foo" =
          Except.ok "bar") :=
  ⟨by decide, by decide, by decide, by decide, by decide,
    c5_update_absent demoStore demoRootFS "foo" "bar" "1234"
      (by decide) (by decide) (by decide) (by decide) (by decide)⟩

/-- The state produced by putting the sibling key `k2921482` into a
fresh store: the MD5 digests of `k2921482` and `k18364604` share their
first 12 hex characters (`93743429619a`), so the two keys share a shard
directory. -/
def c6fs : FS := (Store.put demoStore [] "k2921482" "sibling").1

/-- C6 counterexample: the configuration the claim describes — the
record file of `k18364604` does not exist, while its shard directory
exists because the sibling key `k2921482` (same 12-character digest
prefix) was previously written — but `update` does NOT fail: the rename
of the temporary file onto the nonexistent target succeeds, creating
the record. -/
theorem c6_counterexample :
    Store.get demoStore c6fs "k2921482" = Except.ok "sibling" ∧
      demoStore.get_key_path "k18364604" = demoStore.get_key_path "k2921482" ∧
      lookupNode c6fs
        (joinStr (demoStore.get_key_path "k18364604") "k18364604") = none ∧
      lookupNode c6fs (demoStore.get_key_path "k18364604") = some Node.dir ∧
      (Store.update demoStore c6fs "k18364604" "v" "1234").2 = none ∧
      Store.get demoStore
        (Store.update demoStore c6fs "k18364604" "v" "1234").1 "k18364604" =
        Except.ok "v" := by
  refine ⟨by decide, by decide, by decide, by decide, by decide, by decide⟩

/-- C6 (amended): for a key `k` whose record file does not exist while
its shard directory does exist (e.g. because a sibling key sharing the
shard was previously written), `update(store, k, v)` takes the replace
branch and attempts to rename the temporary file onto the nonexistent
record path — but the rename succeeds (POSIX `rename` creates a
nonexistent target), so `update` succeeds and creates the record
rather than failing. -/
theorem c6_amended_update_shard_only (store : Store) (fs : FS) (k v nanos : String)
    (hk : normalComp k) (hn : digitsOnly nanos)
    (hdir : lookupNode fs (store.get_key_path k) = some Node.dir)
    (habs : lookupNode fs (joinStr (store.get_key_path k) k) = none)
    (htmp : lookupNode fs (joinStr (store.get_key_path k) nanos) = none) :
    (store.update fs k v nanos).2 = none ∧
      store.get (store.update fs k v nanos).1 k = Except.ok v :=
  update_replace_absent store fs k v nanos hk hn hdir habs htmp

/-- C6 (amended) witness: the sibling-shard configuration at concrete
inputs — `update("k18364604")` succeeds and `get` returns the value. -/
theorem c6_amended_update_shard_only_witness :
    normalComp "k18364604" ∧ digitsOnly "1234" ∧
      lookupNode c6fs (demoStore.get_key_path "k18364604") = some Node.dir ∧
      lookupNode c6fs
        (joinStr (demoStore.get_key_path "k18364604") "k18364604") = none ∧
      lookupNode c6fs
        (joinStr (demoStore.get_key_path "k18364604") "1234") = none ∧
      ((Store.update demoStore c6fs "k18364604" "w" "1234").2 = none ∧
        Store.get demoStore
          (Store.update demoStore c6fs "k18364604" "w" "1234").1 "k18364604" =
          Except.ok "w") :=
  ⟨by decide, by decide, by decide, by decide, by decide,
    c6_amended_update_shard_only demoStore c6fs "k18364604" "w" "1234"
      (by decide) (by decide) (by decide) (by decide) (by decide)⟩
